import Mathlib

/-
Verification of the role-check fallback pipeline
(`run_role_check_fallback_1.5.py`).

The program classifies text documents via an external LLM call wrapped in
a bounded retry loop (`analyze_file`), and a batch driver (`main`) that
enumerates sorted `.txt` files, attaches provenance, accumulates usage
totals and writes a report.

The external service is modelled as an environment: for each attempt
index it either raises an exception (with a message) or returns a
response whose content either fails JSON parsing (with a message) or
parses to a JSON value, together with the usage stats of the call.
Everything downstream of that boundary is translated from the source.
-/

namespace RoleCheck

/-- Token usage stats of one completed external call
(`resp.usage` in the source). -/
structure Usage where
  prompt_toks : Nat
  completion_toks : Nat
  total_toks : Nat
deriving Repr, DecidableEq

/-- JSON values, as produced by `json.loads`. Objects keep field order
(Python dicts preserve insertion order). -/
inductive JsonVal where
  | str (s : String)
  | num (n : Int)
  | bool (b : Bool)
  | null
  | arr (xs : List JsonVal)
  | obj (fields : List (String × JsonVal))
deriving Repr

/-- Outcome of one invocation of the external service
(`client.chat.completions.create` followed by `json.loads` on the
content): either the call raises, or it returns content that parses to a
JSON value or fails to parse, plus the usage stats of the call. -/
inductive CallResult where
  | raise (msg : String)
  | returns (parsed : Except String JsonVal) (usage : Usage)

/-- Behaviour of the external service for one document: the outcome of
each attempt, by attempt index. -/
def Env : Type := Nat → CallResult

/-- The five required schema keys
(`required` in `analyze_file`, source line 169). -/
def requiredKeys : List String :=
  ["name", "stated_occupation", "baker_status", "evidence", "reason"]

/-- Keys of a parsed JSON object (`result.keys()`). -/
def keysOf (fields : List (String × JsonVal)) : List String :=
  fields.map Prod.fst

/-- One attempt of the `try` block of `analyze_file` (source lines
119-174): invoke the service, parse the content, check that the required
keys are a subset of the result's keys. Any exception (transport error,
JSON parse error, `.keys()` on a non-dict, `ValueError` from the schema
check) is the `error` case, carrying `str(e)`. -/
def attemptOnce (env : Env) (attempt : Nat) :
    Except String (List (String × JsonVal) × Usage) :=
  match env attempt with
  | .raise msg => .error msg
  | .returns parsed usage =>
    match parsed with
    | .error msg => .error msg
    | .ok (.obj fields) =>
        if requiredKeys.all (fun k => (keysOf fields).contains k) then
          .ok (fields, usage)
        else
          .error "Invalid schema from model"
    | .ok _ => .error "object has no attribute keys"

/-- The synthesized terminal record returned when the second attempt
fails (source lines 180-186). -/
def errorRecord (e : String) : List (String × JsonVal) :=
  [("name", .str ""),
   ("stated_occupation", .str ""),
   ("baker_status", .str "ERROR"),
   ("evidence", .arr []),
   ("reason", .str ("Processing failure: " ++ e))]

/-- Observable events of one `analyze_file` run: an external call (with
its attempt index) or a `time.sleep` of the given number of seconds. -/
inductive Event where
  | call (attempt : Nat)
  | sleep (secs : Nat)
deriving Repr, DecidableEq

/-- The `for attempt in range(2)` loop of `analyze_file` (source lines
118-189), instrumented with its event trace. On success return the
parsed record with its usage; on failure at `attempt == 1` return the
synthesized ERROR record with no usage; otherwise sleep 1 second and
retry. Falling out of the loop is Python's implicit `return None`,
modelled as `none`. -/
def analyzeLoop (env : Env) :
    List Nat → Option (List (String × JsonVal) × Option Usage) × List Event
  | [] => (none, [])
  | attempt :: rest =>
    match attemptOnce env attempt with
    | .ok (fields, usage) => (some (fields, some usage), [.call attempt])
    | .error e =>
      if attempt == 1 then
        (some (errorRecord e, none), [.call attempt])
      else
        let next := analyzeLoop env rest
        (next.1, .call attempt :: .sleep 1 :: next.2)

/-- Return value of `analyze_file`: the record paired with optional
usage, or `none` for Python's implicit fall-through `return None`. -/
def analyze_file (env : Env) :
    Option (List (String × JsonVal) × Option Usage) :=
  (analyzeLoop env [0, 1]).1

/-- Event trace of one `analyze_file` run. -/
def analyzeTrace (env : Env) : List Event :=
  (analyzeLoop env [0, 1]).2

/-- Python dict lookup `d[k]`: first (and in a real dict, only) binding
of the key. -/
def dictGet : List (String × JsonVal) → String → Option JsonVal
  | [], _ => none
  | (k', v') :: rest, k => if k' == k then some v' else dictGet rest k

/-- Python dict assignment `d[k] = v`: overwrite the existing binding in
place if the key is present, otherwise append the new binding at the
end. -/
def dictSet : List (String × JsonVal) → String → JsonVal →
    List (String × JsonVal)
  | [], k, v => [(k, v)]
  | (k', v') :: rest, k, v =>
    if k' == k then (k', v) :: rest else (k', v') :: dictSet rest k v

/-- An input document: filename and contents, as produced by the
document source (`fp.name`, `fp.read_text(...)`). -/
structure Doc where
  name : String
  text : String
deriving Repr, DecidableEq

/-- Strict lexicographic order on character lists by code point: the
ordering Python uses to compare strings (and hence paths). -/
def lexLt : List Char → List Char → Bool
  | [], [] => false
  | [], _ :: _ => true
  | _ :: _, [] => false
  | a :: as, b :: bs =>
    if a < b then true else if b < a then false else lexLt as bs

/-- String comparison `a < b` as Python evaluates it. -/
def strLt (a b : String) : Bool := lexLt a.data b.data

/-- String comparison `a <= b` as Python evaluates it. -/
def strLe (a b : String) : Bool := !(strLt b a)

/-- Eligibility filter of `SAMPLE_DIR.glob("*.txt")`: the name matches
the pattern `*.txt`, i.e. ends with `.txt`. -/
def isTxtFile (d : Doc) : Bool := List.isSuffixOf ".txt".data d.name.data

/-- Comparison used by `sorted(SAMPLE_DIR.glob("*.txt"))`: paths compare
lexicographically by name. -/
def docLe (a b : Doc) : Prop := strLe a.name b.name = true

instance : DecidableRel docLe := fun a b =>
  inferInstanceAs (Decidable (strLe a.name b.name = true))

/-- Name-level version of the sort order, for stating where each record
lands in the report. -/
def nameLe (a b : String) : Prop := strLe a b = true

instance : DecidableRel nameLe := fun a b =>
  inferInstanceAs (Decidable (strLe a b = true))

/-- The file enumeration of `main` (source line 248):
`files = sorted(SAMPLE_DIR.glob("*.txt"))`. Python `sorted` is a stable
sort; modelled by insertion sort, which is extensionally the same. -/
def collectFiles (docs : List Doc) : List Doc :=
  (docs.filter isTxtFile).insertionSort docLe

/-- Outcome of a whole run of the program: `SystemExit` with a message
before any processing (no report written), an unhandled crash inside
the batch loop, or normal completion with the report and the three
aggregate token totals. -/
inductive RunOutcome where
  | configError (msg : String)
  | crashed
  | finished (report : List (List (String × JsonVal)))
      (totalPrompt totalCompletion totalTokens : Nat)

/-- Truthiness of `if not API_KEY` (source line 55): the key is missing
when the environment variable is unset or the empty string. -/
def apiKeyMissing : Option String → Bool
  | none => true
  | some s => s.isEmpty

/-- The batch loop of `main` (source lines 259-275), over the sorted
files, with the per-document environment indexed by position: call
`analyze_file`, accumulate usage totals when usage is present, set the
`_file` provenance key, append the record. `analyze_file` returning
`None` would make the driver's tuple unpacking raise, modelled as
`none` (a crash). -/
def batchLoop (envs : Nat → Env) :
    List Doc → Nat →
    Option (List (List (String × JsonVal)) × (Nat × Nat × Nat))
  | [], _ => some ([], (0, 0, 0))
  | doc :: rest, i =>
    match analyze_file (envs i) with
    | none => none
    | some (result, usage) =>
      match batchLoop envs rest (i + 1) with
      | none => none
      | some (restReport, (p, c, t)) =>
        let dp := match usage with | some u => u.prompt_toks | none => 0
        let dc := match usage with | some u => u.completion_toks | none => 0
        let dt := match usage with | some u => u.total_toks | none => 0
        some (dictSet result "_file" (.str doc.name) :: restReport,
              (dp + p, dc + c, dt + t))

/-- The whole process (module-level API key check, source lines 50-58,
then `main`, source lines 243-288): fail fast on missing credentials,
missing input folder, or zero eligible documents; otherwise run the
batch loop and finish with the report and aggregate totals. -/
def runProcess (apiKey : Option String) (inputDir : Option (List Doc))
    (envs : Nat → Env) : RunOutcome :=
  if apiKeyMissing apiKey then
    .configError "Missing OPENAI_API_KEY. Put it in a .env file or set it in your environment."
  else
    match inputDir with
    | none => .configError "Missing folder"
    | some docs =>
      let files := collectFiles docs
      if files.isEmpty then .configError "No .txt files found"
      else
        match batchLoop envs files 0 with
        | none => .crashed
        | some (report, (p, c, t)) => .finished report p c t

theorem lexLt_nil_right : ∀ x, lexLt x [] = false
  | [] => rfl
  | _ :: _ => rfl

theorem lexLt_asymm : ∀ x y, lexLt x y = true → lexLt y x = false
  | [], [], h => by simp [lexLt] at h
  | [], _ :: _, _ => lexLt_nil_right _
  | _ :: _, [], h => by simp [lexLt] at h
  | a :: as, b :: bs, h => by
    simp only [lexLt] at h ⊢
    by_cases hab : a < b
    · simp [hab, asymm hab]
    · by_cases hba : b < a
      · simp [hab, hba] at h
      · simp only [hab, hba, if_false] at h ⊢
        exact lexLt_asymm as bs h

theorem lexLt_trans : ∀ x y z, lexLt x y = true → lexLt y z = true →
    lexLt x z = true
  | _, y, [], _, h2 => by rw [lexLt_nil_right y] at h2; exact absurd h2 (by simp)
  | [], _, _ :: _, _, _ => rfl
  | a :: as, [], z, h1, _ => by simp [lexLt] at h1
  | a :: as, b :: bs, c :: cs, h1, h2 => by
    simp only [lexLt] at h1 h2 ⊢
    by_cases hab : a < b
    · by_cases hbc : b < c
      · simp [lt_trans hab hbc]
      · by_cases hcb : c < b
        · simp [hab, hbc, hcb] at h2
        · have hbceq : b = c := le_antisymm (not_lt.mp hcb) (not_lt.mp hbc)
          subst hbceq
          simp [hab]
    · by_cases hba : b < a
      · simp [hab, hba] at h1
      · have habeq : a = b := le_antisymm (not_lt.mp hba) (not_lt.mp hab)
        subst habeq
        simp only [hab, if_false, if_neg (lt_irrefl a)] at h1 ⊢
        by_cases hac : a < c
        · simp [hac]
        · by_cases hca : c < a
          · simp [hac, hca] at h2
          · simp only [hac, hca, if_false] at h2 ⊢
            exact lexLt_trans as bs cs h1 h2

theorem lexLt_connex : ∀ x y, lexLt x y = false → lexLt y x = false → x = y
  | [], [], _, _ => rfl
  | [], _ :: _, h1, _ => by simp [lexLt] at h1
  | _ :: _, [], _, h2 => by simp [lexLt] at h2
  | a :: as, b :: bs, h1, h2 => by
    simp only [lexLt] at h1 h2
    by_cases hab : a < b
    · simp [hab] at h1
    · by_cases hba : b < a
      · simp [hab, hba] at h2
      · have habeq : a = b := le_antisymm (not_lt.mp hba) (not_lt.mp hab)
        subst habeq
        simp only [if_neg (lt_irrefl a), if_false] at h1 h2
        rw [lexLt_connex as bs h1 h2]

theorem strLe_total (a b : String) : strLe a b = true ∨ strLe b a = true := by
  by_cases h1 : lexLt b.data a.data = true
  · right
    simp [strLe, strLt, lexLt_asymm _ _ h1]
  · left
    simp only [strLe, strLt, Bool.not_eq_true'] at h1 ⊢
    simpa using h1

theorem strLe_trans {a b c : String} (h1 : strLe a b = true)
    (h2 : strLe b c = true) : strLe a c = true := by
  simp only [strLe, strLt, Bool.not_eq_true'] at h1 h2 ⊢
  by_cases hca : lexLt c.data a.data = true
  · by_cases hbc : lexLt b.data c.data = true
    · rw [lexLt_trans _ _ _ hbc hca] at h1
      exact absurd h1 (by simp)
    · have heq := lexLt_connex _ _ h2 (by simpa using hbc)
      rw [heq] at hca
      rw [h1] at hca
      exact absurd hca (by simp)
  · simpa using hca

theorem strLe_antisymm {a b : String} (h1 : strLe a b = true)
    (h2 : strLe b a = true) : a = b := by
  simp only [strLe, strLt, Bool.not_eq_true'] at h1 h2
  have hdata : a.data = b.data := lexLt_connex _ _ h2 h1
  cases a
  cases b
  exact congrArg String.mk (by simpa using hdata)

instance : IsTotal Doc docLe := ⟨fun a b => strLe_total a.name b.name⟩

instance : IsTrans Doc docLe := ⟨fun _ _ _ => strLe_trans⟩

instance : IsTotal String nameLe := ⟨strLe_total⟩

instance : IsTrans String nameLe := ⟨fun _ _ _ => strLe_trans⟩

instance : IsAntisymm String nameLe := ⟨fun _ _ => strLe_antisymm⟩

theorem analyze_ok0 {env : Env} {fields : List (String × JsonVal)} {u : Usage}
    (h0 : attemptOnce env 0 = .ok (fields, u)) :
    analyze_file env = some (fields, some u) ∧ analyzeTrace env = [.call 0] := by
  simp [analyze_file, analyzeTrace, analyzeLoop, h0]

theorem analyze_err0_ok1 {env : Env} {e : String}
    {fields : List (String × JsonVal)} {u : Usage}
    (h0 : attemptOnce env 0 = .error e) (h1 : attemptOnce env 1 = .ok (fields, u)) :
    analyze_file env = some (fields, some u) ∧
    analyzeTrace env = [.call 0, .sleep 1, .call 1] := by
  simp [analyze_file, analyzeTrace, analyzeLoop, h0, h1]

theorem analyze_err0_err1 {env : Env} {e0 e1 : String}
    (h0 : attemptOnce env 0 = .error e0) (h1 : attemptOnce env 1 = .error e1) :
    analyze_file env = some (errorRecord e1, none) ∧
    analyzeTrace env = [.call 0, .sleep 1, .call 1] := by
  simp [analyze_file, analyzeTrace, analyzeLoop, h0, h1]

theorem analyze_isSome (env : Env) : (analyze_file env).isSome := by
  match h0 : attemptOnce env 0 with
  | .ok (fields, u) => simp [(analyze_ok0 h0).1]
  | .error e0 =>
    match h1 : attemptOnce env 1 with
    | .ok (fields, u) => simp [(analyze_err0_ok1 h0 h1).1]
    | .error e1 => simp [(analyze_err0_err1 h0 h1).1]

theorem dictGet_dictSet_same (r : List (String × JsonVal)) (k : String)
    (v : JsonVal) : dictGet (dictSet r k v) k = some v := by
  induction r with
  | nil => simp [dictSet, dictGet]
  | cons hd tl ih =>
    obtain ⟨k', v'⟩ := hd
    by_cases hk : k' == k
    · simp [dictSet, dictGet, hk]
    · simp only [dictSet, dictGet, hk, Bool.false_eq_true, if_false]
      exact ih

theorem dictGet_dictSet_ne (r : List (String × JsonVal)) {k k' : String}
    (v : JsonVal) (hne : k' ≠ k) :
    dictGet (dictSet r k v) k' = dictGet r k' := by
  induction r with
  | nil =>
    simp only [dictSet, dictGet]
    rw [if_neg (by simpa [beq_iff_eq] using fun he => hne he.symm)]
  | cons hd tl ih =>
    obtain ⟨k0, v0⟩ := hd
    by_cases hk : (k0 == k) = true
    · have hk0 : k0 = k := by simpa [beq_iff_eq] using hk
      subst hk0
      simp only [dictSet, if_pos (beq_self_eq_true k0), dictGet]
      rw [if_neg (by simpa [beq_iff_eq] using fun he => hne he.symm),
          if_neg (by simpa [beq_iff_eq] using fun he => hne he.symm)]
    · simp only [dictSet]
      rw [if_neg hk]
      by_cases hk' : (k0 == k') = true
      · simp [dictGet, hk']
      · simp only [dictGet]
        rw [if_neg hk', if_neg hk']
        exact ih

theorem dictGet_isSome_of_mem_keys {r : List (String × JsonVal)} {k : String}
    (h : k ∈ keysOf r) : (dictGet r k).isSome := by
  induction r with
  | nil => simp [keysOf] at h
  | cons hd tl ih =>
    obtain ⟨k0, v0⟩ := hd
    by_cases hk : (k0 == k) = true
    · simp [dictGet, hk]
    · simp only [dictGet]
      rw [if_neg hk]
      apply ih
      simp only [keysOf, List.map_cons, List.mem_cons] at h
      rcases h with he | hm
      · exact absurd (beq_iff_eq.mpr he.symm) hk
      · simpa [keysOf] using hm

theorem dictSet_append_of_not_mem (r : List (String × JsonVal))
    {k : String} (v : JsonVal) (h : k ∉ keysOf r) :
    dictSet r k v = r ++ [(k, v)] := by
  induction r with
  | nil => simp [dictSet]
  | cons hd tl ih =>
    obtain ⟨k0, v0⟩ := hd
    simp only [keysOf, List.map_cons, List.mem_cons, not_or] at h
    have hne : ¬ (k0 == k) = true := by
      simp only [beq_iff_eq]
      exact fun he => h.1 he.symm
    simp only [dictSet]
    rw [if_neg hne]
    simp only [List.cons_append, List.cons.injEq, true_and]
    exact ih (by simpa [keysOf] using h.2)

/-- Usage contributed by one document to the aggregate totals: the usage
of the succeeding call, or zero when both attempts failed (the driver
adds nothing for absent usage). -/
def docUsage (env : Env) : Usage :=
  match analyze_file env with
  | some (_, some u) => u
  | _ => ⟨0, 0, 0⟩

theorem batchLoop_spec (envs : Nat → Env) :
    ∀ (files : List Doc) (i : Nat),
    ∃ rep p c t, batchLoop envs files i = some (rep, (p, c, t)) ∧
      rep.length = files.length ∧
      p = ((List.enumFrom i files).map
            (fun x => (docUsage (envs x.1)).prompt_toks)).sum ∧
      c = ((List.enumFrom i files).map
            (fun x => (docUsage (envs x.1)).completion_toks)).sum ∧
      t = ((List.enumFrom i files).map
            (fun x => (docUsage (envs x.1)).total_toks)).sum ∧
      ∀ j (hj : j < files.length) (hj' : j < rep.length),
        ∃ r u, analyze_file (envs (i + j)) = some (r, u) ∧
          rep.get ⟨j, hj'⟩ =
            dictSet r "_file" (.str (files.get ⟨j, hj⟩).name) := by
  intro files
  induction files with
  | nil =>
    intro i
    refine ⟨[], 0, 0, 0, rfl, rfl, by simp [List.enumFrom], by simp [List.enumFrom],
      by simp [List.enumFrom], ?_⟩
    intro j hj
    exact absurd hj (by simp)
  | cons d rest ih =>
    intro i
    obtain ⟨⟨r, u⟩, hr⟩ := Option.isSome_iff_exists.mp (analyze_isSome (envs i))
    obtain ⟨rep', p', c', t', hloop, hlen, hp, hc, ht, hrec⟩ := ih (i + 1)
    have hdu : docUsage (envs i) =
        (match u with | some u0 => u0 | none => ⟨0, 0, 0⟩) := by
      cases u <;> simp [docUsage, hr]
    refine ⟨dictSet r "_file" (.str d.name) :: rep',
      (docUsage (envs i)).prompt_toks + p',
      (docUsage (envs i)).completion_toks + c',
      (docUsage (envs i)).total_toks + t', ?_, ?_, ?_, ?_, ?_, ?_⟩
    · simp only [batchLoop, hr, hloop]
      cases u <;> simp_all
    · simpa using hlen
    · simpa [List.enumFrom] using hp
    · simpa [List.enumFrom] using hc
    · simpa [List.enumFrom] using ht
    · intro j hj hj'
      match j with
      | 0 =>
        refine ⟨r, u, by simpa using hr, ?_⟩
        simp
      | j + 1 =>
        have hj2 : j < rest.length := by simpa using hj
        have hj2' : j < rep'.length := by simpa using hj'
        obtain ⟨r0, u0, hr0, hget0⟩ := hrec j hj2 hj2'
        refine ⟨r0, u0, ?_, ?_⟩
        · have harith : i + (j + 1) = i + 1 + j := by omega
          rw [harith]
          exact hr0
        · simpa using hget0

/-- Concrete well-formed model response used for tests: all five
required keys with enum-conformant values. -/
def goodFields : List (String × JsonVal) :=
  [("name", .str "Alice"),
   ("stated_occupation", .str "baker"),
   ("baker_status", .str "SUPPORTED"),
   ("evidence", .arr [.str "bakes bread"]),
   ("reason", .str "title states baker")]

/-- Concrete usage stats fixture. -/
def uA : Usage := ⟨10, 5, 15⟩

/-- Environment where the external call raises on both attempts. -/
def envBothFail : Env := fun _ => .raise "boom"

/-- Environment where attempt 1 returns a malformed record (missing the
`reason` key among others) and attempt 2 returns a well-formed one. -/
def envRecover : Env := fun n =>
  if n == 0 then .returns (.ok (.obj [("name", .str "A")])) uA
  else .returns (.ok (.obj goodFields)) uA

/-- Environment where the first attempt already succeeds. -/
def envFirstOk : Env := fun _ => .returns (.ok (.obj goodFields)) uA

theorem processingFailure_ne_empty (e : String) :
    ("Processing failure: " ++ e) ≠ "" := by
  intro h
  have h3 := congrArg String.data h
  rw [String.data_append] at h3
  simp at h3

/-- C1: if both attempts of the extraction call fail for any reason,
`analyze_file` returns the synthesized terminal record with
`baker_status = "ERROR"`, empty `name`, `stated_occupation` and
`evidence`, and a non-empty reason describing the last failure, paired
with absent usage stats. -/
theorem C1_terminal_error_synthesis (env : Env) (e0 e1 : String)
    (h0 : attemptOnce env 0 = .error e0)
    (h1 : attemptOnce env 1 = .error e1) :
    ∃ r, analyze_file env = some (r, none) ∧
      dictGet r "name" = some (.str "") ∧
      dictGet r "stated_occupation" = some (.str "") ∧
      dictGet r "baker_status" = some (.str "ERROR") ∧
      dictGet r "evidence" = some (.arr []) ∧
      dictGet r "reason" = some (.str ("Processing failure: " ++ e1)) ∧
      ("Processing failure: " ++ e1) ≠ "" := by
  refine ⟨errorRecord e1, (analyze_err0_err1 h0 h1).1, ?_, ?_, ?_, ?_, ?_,
    processingFailure_ne_empty e1⟩ <;> simp [errorRecord, dictGet]

/-- Witness for C1 at a concrete environment where both attempts
raise. -/
theorem C1_terminal_error_synthesis_witness :
    ∃ r, analyze_file envBothFail = some (r, none) ∧
      dictGet r "name" = some (.str "") ∧
      dictGet r "stated_occupation" = some (.str "") ∧
      dictGet r "baker_status" = some (.str "ERROR") ∧
      dictGet r "evidence" = some (.arr []) ∧
      dictGet r "reason" = some (.str ("Processing failure: " ++ "boom")) ∧
      ("Processing failure: " ++ "boom") ≠ "" :=
  C1_terminal_error_synthesis envBothFail "boom" "boom" rfl rfl

/-- C2: if the first attempt fails and the second attempt yields a
response that parses as a JSON object containing all five required keys,
`analyze_file` returns that second-attempt parsed record unchanged,
paired with the usage stats of the second call. -/
theorem C2_retry_recovers (env : Env) (e : String)
    (fields : List (String × JsonVal)) (u : Usage)
    (h0 : attemptOnce env 0 = .error e)
    (h1 : env 1 = .returns (.ok (.obj fields)) u)
    (hkeys : requiredKeys.all (fun k => (keysOf fields).contains k) = true) :
    analyze_file env = some (fields, some u) := by
  have hok : attemptOnce env 1 = .ok (fields, u) := by
    simp only [attemptOnce, h1]
    rw [if_pos hkeys]
  exact (analyze_err0_ok1 h0 hok).1

/-- Witness for C2 at a concrete environment: attempt 1 is missing the
`reason` key, attempt 2 is well-formed. -/
theorem C2_retry_recovers_witness :
    analyze_file envRecover = some (goodFields, some uA) :=
  C2_retry_recovers envRecover "Invalid schema from model" goodFields uA
    rfl rfl rfl

/-- C5: per document there are at most 2 external calls; the fixed
1-second backoff happens exactly when the first attempt failed,
strictly between the two calls, and nothing follows the second call. -/
theorem C5_bounded_retry_backoff (env : Env) :
    (analyzeTrace env).countP
        (fun ev => match ev with | .call _ => true | _ => false) ≤ 2 ∧
    ((∃ fields u, attemptOnce env 0 = .ok (fields, u)) ∧
        analyzeTrace env = [.call 0] ∨
      (∃ e, attemptOnce env 0 = .error e) ∧
        analyzeTrace env = [.call 0, .sleep 1, .call 1]) := by
  match h0 : attemptOnce env 0 with
  | .ok (fields, u) =>
    have ht := (analyze_ok0 h0).2
    constructor
    · rw [ht]; decide
    · exact Or.inl ⟨⟨fields, u, rfl⟩, ht⟩
  | .error e0 =>
    match h1 : attemptOnce env 1 with
    | .ok (fields, u) =>
      have ht := (analyze_err0_ok1 h0 h1).2
      constructor
      · rw [ht]; decide
      · exact Or.inr ⟨⟨e0, rfl⟩, ht⟩
    | .error e1 =>
      have ht := (analyze_err0_err1 h0 h1).2
      constructor
      · rw [ht]; decide
      · exact Or.inr ⟨⟨e0, rfl⟩, ht⟩

/-- C9: `analyze_file` always returns a pair for every behaviour of the
external call across its two attempts — the implicit fall-through
`return None` is unreachable — so the driver's tuple unpacking never
fails: every run ends in a configuration error or a finished report,
never in a crash. -/
theorem C9_no_fallthrough :
    (∀ env, (analyze_file env).isSome = true) ∧
    (∀ apiKey inputDir envs,
      (∃ msg, runProcess apiKey inputDir envs = .configError msg) ∨
      ∃ rep p c t, runProcess apiKey inputDir envs = .finished rep p c t) := by
  refine ⟨analyze_isSome, ?_⟩
  intro apiKey inputDir envs
  by_cases hkey : apiKeyMissing apiKey = true
  · exact Or.inl ⟨_, by rw [runProcess.eq_def, if_pos hkey]⟩
  · match inputDir with
    | none => exact Or.inl ⟨_, by rw [runProcess.eq_def, if_neg hkey]⟩
    | some docs =>
      by_cases hempty : (collectFiles docs).isEmpty = true
      · exact Or.inl ⟨_, by rw [runProcess, if_neg hkey, if_pos hempty]⟩
      · obtain ⟨rep, p, c, t, hloop, _⟩ :=
          batchLoop_spec envs (collectFiles docs) 0
        exact Or.inr ⟨rep, p, c, t, by
          rw [runProcess, if_neg hkey, if_neg hempty, hloop]⟩

/-- C6: the run aborts with a configuration error and writes no report
exactly when the API key is missing, the input directory is missing, or
it holds zero `.txt` documents; otherwise, for every combination of
per-document external-call failures, the batch loop completes over all
documents and the run finishes with the full report. -/
theorem C6_fail_fast_or_complete (apiKey : Option String)
    (inputDir : Option (List Doc)) (envs : Nat → Env) :
    ((∃ msg, runProcess apiKey inputDir envs = .configError msg) ↔
      (apiKeyMissing apiKey = true ∨ inputDir = none ∨
        ∃ docs, inputDir = some docs ∧ collectFiles docs = [])) ∧
    (∀ docs, inputDir = some docs → apiKeyMissing apiKey = false →
      collectFiles docs ≠ [] →
      ∃ rep p c t, runProcess apiKey inputDir envs = .finished rep p c t ∧
        rep.length = (collectFiles docs).length) := by
  by_cases hkey : apiKeyMissing apiKey = true
  · constructor
    · exact ⟨fun _ => Or.inl hkey,
        fun _ =>
          ⟨"Missing OPENAI_API_KEY. Put it in a .env file or set it in your environment.",
           by simp [runProcess, hkey]⟩⟩
    · intro docs _ hkey'
      rw [hkey] at hkey'
      exact absurd hkey' (by simp)
  · have hkey' : apiKeyMissing apiKey = false := by simpa using hkey
    match inputDir with
    | none =>
      constructor
      · exact ⟨fun _ => Or.inr (Or.inl rfl),
          fun _ => ⟨"Missing folder", by simp [runProcess, hkey']⟩⟩
      · intro docs hdocs
        exact absurd hdocs (by simp)
    | some docs =>
      by_cases hempty : collectFiles docs = []
      · constructor
        · exact ⟨fun _ => Or.inr (Or.inr ⟨docs, rfl, hempty⟩),
            fun _ => ⟨"No .txt files found", by simp [runProcess, hkey', hempty]⟩⟩
        · intro docs' hdocs' _ hne
          have hdd : docs' = docs := (Option.some.inj hdocs').symm
          rw [hdd] at hne
          exact absurd hempty hne
      · obtain ⟨rep, p, c, t, hloop, hlen, _⟩ :=
          batchLoop_spec envs (collectFiles docs) 0
        have hrun : runProcess apiKey (some docs) envs = .finished rep p c t := by
          simp only [runProcess, hkey', Bool.false_eq_true, if_false]
          rw [if_neg (by simpa [List.isEmpty_iff] using hempty), hloop]
        constructor
        · rw [hrun]
          constructor
          · rintro ⟨msg, hmsg⟩
            cases hmsg
          · rintro (h | h | ⟨docs', hd, he⟩)
            · rw [h] at hkey'; exact absurd hkey' (by simp)
            · cases h
            · have hdd : docs' = docs := (Option.some.inj hd).symm
              rw [hdd] at he
              exact absurd he hempty
        · intro docs' hdocs' _ _
          have hdd : docs' = docs := (Option.some.inj hdocs').symm
          subst hdd
          exact ⟨rep, p, c, t, hrun, hlen⟩

/-- Witness for C6: with a present key, one `.txt` document and an
always-failing service, the run still finishes with a one-record
report. -/
theorem C6_fail_fast_or_complete_witness :
    ∃ rep p c t,
      runProcess (some "k") (some [⟨"a.txt", "x"⟩]) (fun _ => envBothFail) =
        .finished rep p c t ∧
      rep.length = (collectFiles [⟨"a.txt", "x"⟩]).length :=
  (C6_fail_fast_or_complete (some "k") (some [⟨"a.txt", "x"⟩])
    (fun _ => envBothFail)).2 [⟨"a.txt", "x"⟩] rfl rfl (by decide)

/-- C7: for an input set of `.txt` documents, the final report has one
record per document and the record at each index carries, in its
`_file` provenance key, the filename at that index of the
lexicographically sorted filename list (stated for any sorted
permutation of the input filenames, which is unique). -/
theorem C7_order_preservation (docs : List Doc) (apiKey : Option String)
    (envs : Nat → Env)
    (hkey : apiKeyMissing apiKey = false)
    (htxt : ∀ d ∈ docs, isTxtFile d = true)
    (hne : docs ≠ []) :
    ∃ rep p c t, runProcess apiKey (some docs) envs = .finished rep p c t ∧
      rep.length = docs.length ∧
      ∀ ns : List String, List.Sorted nameLe ns →
        ns.Perm (docs.map Doc.name) →
        ∀ j (hj : j < rep.length) (hj2 : j < ns.length),
          dictGet (rep.get ⟨j, hj⟩) "_file" =
            some (.str (ns.get ⟨j, hj2⟩)) := by
  have hfilter : docs.filter isTxtFile = docs := List.filter_eq_self.mpr htxt
  have hfiles : collectFiles docs = docs.insertionSort docLe := by
    rw [collectFiles, hfilter]
  have hlenfiles : (collectFiles docs).length = docs.length := by
    rw [hfiles, List.length_insertionSort]
  have hnonempty : collectFiles docs ≠ [] := by
    intro h
    apply hne
    have := congrArg List.length h
    rw [hlenfiles] at this
    exact List.length_eq_zero.mp this
  obtain ⟨rep, p, c, t, hloop, hlen, _, _, _, hrec⟩ :=
    batchLoop_spec envs (collectFiles docs) 0
  have hrun : runProcess apiKey (some docs) envs = .finished rep p c t := by
    simp only [runProcess, hkey, Bool.false_eq_true, if_false]
    rw [if_neg (by simpa [List.isEmpty_iff] using hnonempty), hloop]
  refine ⟨rep, p, c, t, hrun, by rw [hlen, hlenfiles], ?_⟩
  intro ns hsort hperm j hj hj2
  have hsorted_files : List.Sorted docLe (collectFiles docs) := by
    rw [hfiles]
    exact List.sorted_insertionSort docLe docs
  have hsorted_names : List.Sorted nameLe ((collectFiles docs).map Doc.name) :=
    hsorted_files.map Doc.name (fun _ _ h => h)
  have hperm_names :
      ((collectFiles docs).map Doc.name).Perm (docs.map Doc.name) := by
    rw [hfiles]
    exact (List.perm_insertionSort docLe docs).map Doc.name
  have hns : ns = (collectFiles docs).map Doc.name :=
    List.eq_of_perm_of_sorted (hperm.trans hperm_names.symm) hsort hsorted_names
  have hjf : j < (collectFiles docs).length := by rw [← hlen]; exact hj
  subst hns
  obtain ⟨r, u, _, hgetrec⟩ := hrec j hjf hj
  rw [hgetrec, dictGet_dictSet_same]
  simp [List.getElem_map]

/-- Witness for C7 at a two-document input with an always-succeeding
service. -/
theorem C7_order_preservation_witness :
    ∃ rep p c t,
      runProcess (some "k") (some [⟨"b.txt", "B"⟩, ⟨"a.txt", "A"⟩])
        (fun _ => envFirstOk) = .finished rep p c t ∧
      rep.length = [Doc.mk "b.txt" "B", Doc.mk "a.txt" "A"].length ∧
      ∀ ns : List String, List.Sorted nameLe ns →
        ns.Perm ([Doc.mk "b.txt" "B", Doc.mk "a.txt" "A"].map Doc.name) →
        ∀ j (hj : j < rep.length) (hj2 : j < ns.length),
          dictGet (rep.get ⟨j, hj⟩) "_file" =
            some (.str (ns.get ⟨j, hj2⟩)) :=
  C7_order_preservation [⟨"b.txt", "B"⟩, ⟨"a.txt", "A"⟩] (some "k")
    (fun _ => envFirstOk) rfl (by decide) (by decide)

/-- C8: the usage component of `analyze_file` is absent exactly when
both attempts failed; when present it is the usage of the single
succeeding call (first attempt, or second after a failed first), and
the driver's aggregate totals are the sums of the per-document usage,
with failed documents contributing zero. -/
theorem C8_usage_accounting :
    (∀ env r uOpt, analyze_file env = some (r, uOpt) →
      ((uOpt = none ↔
        (∃ e0, attemptOnce env 0 = .error e0) ∧
          ∃ e1, attemptOnce env 1 = .error e1) ∧
       ∀ u, uOpt = some u →
         (attemptOnce env 0 = .ok (r, u) ∨
          (∃ e0, attemptOnce env 0 = .error e0) ∧
            attemptOnce env 1 = .ok (r, u)))) ∧
    (∀ (envs : Nat → Env) files i rep p c t,
      batchLoop envs files i = some (rep, (p, c, t)) →
      p = ((List.enumFrom i files).map
            (fun x => (docUsage (envs x.1)).prompt_toks)).sum ∧
      c = ((List.enumFrom i files).map
            (fun x => (docUsage (envs x.1)).completion_toks)).sum ∧
      t = ((List.enumFrom i files).map
            (fun x => (docUsage (envs x.1)).total_toks)).sum) := by
  constructor
  · intro env r uOpt h
    match h0 : attemptOnce env 0 with
    | .ok (fields, u0) =>
      have ha := (analyze_ok0 h0).1
      rw [h] at ha
      have heq := Option.some.inj ha.symm
      simp only [Prod.mk.injEq] at heq
      obtain ⟨hr, hu⟩ := heq
      subst hr
      constructor
      · rw [← hu]
        constructor
        · intro hcontra
          cases hcontra
        · rintro ⟨⟨e0, he0⟩, _⟩
          cases he0
      · intro u huu
        rw [← hu] at huu
        have : u0 = u := Option.some.inj huu
        subst this
        exact Or.inl rfl
    | .error e0 =>
      match h1 : attemptOnce env 1 with
      | .ok (fields, u0) =>
        have ha := (analyze_err0_ok1 h0 h1).1
        rw [h] at ha
        have heq := Option.some.inj ha.symm
        simp only [Prod.mk.injEq] at heq
        obtain ⟨hr, hu⟩ := heq
        subst hr
        constructor
        · rw [← hu]
          constructor
          · intro hcontra
            cases hcontra
          · rintro ⟨_, ⟨e1, he1⟩⟩
            cases he1
        · intro u huu
          rw [← hu] at huu
          have : u0 = u := Option.some.inj huu
          subst this
          exact Or.inr ⟨⟨e0, rfl⟩, rfl⟩
      | .error e1 =>
        have ha := (analyze_err0_err1 h0 h1).1
        rw [h] at ha
        have heq := Option.some.inj ha.symm
        simp only [Prod.mk.injEq] at heq
        obtain ⟨hr, hu⟩ := heq
        subst hr
        constructor
        · rw [← hu]
          exact ⟨fun _ => ⟨⟨e0, rfl⟩, ⟨e1, rfl⟩⟩, fun _ => rfl⟩
        · intro u huu
          rw [← hu] at huu
          cases huu
  · intro envs files i rep p c t h
    obtain ⟨rep', p', c', t', hloop, _, hp, hc, ht, _⟩ :=
      batchLoop_spec envs files i
    rw [h] at hloop
    have heq := Option.some.inj hloop
    simp only [Prod.mk.injEq] at heq
    obtain ⟨hrep, hpe, hce, hte⟩ := heq
    exact ⟨hpe.trans hp, hce.trans hc, hte.trans ht⟩

/-- Witness for C8 at a terminal-failure environment: usage is absent
and both attempts indeed errored. -/
theorem C8_usage_accounting_witness :
    ((none : Option Usage) = none ↔
      (∃ e0, attemptOnce envBothFail 0 = .error e0) ∧
        ∃ e1, attemptOnce envBothFail 1 = .error e1) ∧
    ∀ u, (none : Option Usage) = some u →
      (attemptOnce envBothFail 0 = .ok (errorRecord "boom", u) ∨
       (∃ e0, attemptOnce envBothFail 0 = .error e0) ∧
         attemptOnce envBothFail 1 = .ok (errorRecord "boom", u)) :=
  C8_usage_accounting.1 envBothFail (errorRecord "boom") none rfl

/-- Inversion of a finished run: the report and totals come from the
batch loop over the sorted eligible files. -/
theorem runProcess_finished_inv {apiKey : Option String} {docs : List Doc}
    {envs : Nat → Env}
    {rep : List (List (String × JsonVal))} {p c t : Nat}
    (h : runProcess apiKey (some docs) envs = .finished rep p c t) :
    batchLoop envs (collectFiles docs) 0 = some (rep, (p, c, t)) := by
  by_cases hkey : apiKeyMissing apiKey = true
  · rw [runProcess, if_pos hkey] at h
    cases h
  · rw [runProcess, if_neg hkey] at h
    by_cases hempty : (collectFiles docs).isEmpty = true
    · rw [if_pos hempty] at h
      cases h
    · rw [if_neg hempty] at h
      match hloop : batchLoop envs (collectFiles docs) 0 with
      | none => rw [hloop] at h; cases h
      | some (rep', (p', c', t')) =>
        rw [hloop] at h
        simp only at h
        cases h
        rfl

theorem attemptOnce_ok_keys {env : Env} {a : Nat}
    {fields : List (String × JsonVal)} {u : Usage}
    (h : attemptOnce env a = .ok (fields, u)) :
    ∀ k ∈ requiredKeys, k ∈ keysOf fields := by
  intro k hk
  rw [attemptOnce] at h
  split at h
  · cases h
  · split at h
    · cases h
    · split at h
      · rename_i hall
        have heq := Except.ok.inj h
        simp only [Prod.mk.injEq] at heq
        obtain ⟨hf, _⟩ := heq
        subst hf
        have hc := List.all_eq_true.mp hall k hk
        simpa using hc
      · cases h
    · cases h

theorem analyze_record_keys {env : Env} {r : List (String × JsonVal)}
    {uOpt : Option Usage} (h : analyze_file env = some (r, uOpt)) :
    ∀ k ∈ requiredKeys, k ∈ keysOf r := by
  match h0 : attemptOnce env 0 with
  | .ok (fields, u0) =>
    have ha := (analyze_ok0 h0).1
    rw [h] at ha
    have heq := Option.some.inj ha.symm
    simp only [Prod.mk.injEq] at heq
    rw [← heq.1]
    exact attemptOnce_ok_keys h0
  | .error e0 =>
    match h1 : attemptOnce env 1 with
    | .ok (fields, u0) =>
      have ha := (analyze_err0_ok1 h0 h1).1
      rw [h] at ha
      have heq := Option.some.inj ha.symm
      simp only [Prod.mk.injEq] at heq
      rw [← heq.1]
      exact attemptOnce_ok_keys h1
    | .error e1 =>
      have ha := (analyze_err0_err1 h0 h1).1
      rw [h] at ha
      have heq := Option.some.inj ha.symm
      simp only [Prod.mk.injEq] at heq
      rw [← heq.1]
      intro k hk
      have hkeys : keysOf (errorRecord e1) = requiredKeys := rfl
      rw [hkeys]
      exact hk

theorem dictGet_dictSet_isSome {r : List (String × JsonVal)}
    {k : String} (k' : String) (v : JsonVal) (h : k ∈ keysOf r) :
    (dictGet (dictSet r k' v) k).isSome := by
  by_cases hkk : k = k'
  · subst hkk
    rw [dictGet_dictSet_same]
    rfl
  · rw [dictGet_dictSet_ne r v hkk]
    exact dictGet_isSome_of_mem_keys h

/-- Concrete model response with all five keys present but ill-shaped
values: a status outside the enum and four evidence entries. The key
check accepts it. -/
def badShapeFields : List (String × JsonVal) :=
  [("name", .str "A"),
   ("stated_occupation", .str "x"),
   ("baker_status", .str "BANANA"),
   ("evidence", .arr [.str "e1", .str "e2", .str "e3", .str "e4"]),
   ("reason", .str "r")]

/-- Environment whose model response is `badShapeFields`. -/
def envBadShape : Env := fun _ => .returns (.ok (.obj badShapeFields)) uA

/-- C3 counterexample: with all five keys present, the pipeline performs
no shape validation, so a record whose `baker_status` is outside the
four-value enum and whose `evidence` holds four entries reaches the
final report unchanged — refuting the claimed shape invariant. -/
theorem C3_counterexample :
    runProcess (some "k") (some [⟨"a.txt", "x"⟩]) (fun _ => envBadShape) =
      .finished [badShapeFields ++ [("_file", .str "a.txt")]] 10 5 15 ∧
    dictGet (badShapeFields ++ [("_file", .str "a.txt")]) "baker_status" =
      some (.str "BANANA") ∧
    "BANANA" ∉ ["SUPPORTED", "NOT_FOUND", "CONFLICT", "ERROR"] ∧
    dictGet (badShapeFields ++ [("_file", .str "a.txt")]) "evidence" =
      some (.arr [.str "e1", .str "e2", .str "e3", .str "e4"]) ∧
    ¬ ([JsonVal.str "e1", .str "e2", .str "e3", .str "e4"].length ≤ 3) :=
  ⟨rfl, rfl, by decide, rfl, by decide⟩

/-- C3 amended: every record of a finished report has all five required
keys present (possibly with empty values); value shapes are not
enforced — the schema check accepts any values under those keys, so
status strings outside the enum and evidence lists of any length can
propagate. -/
theorem C3_amended_keys_always_present (apiKey : Option String)
    (docs : List Doc) (envs : Nat → Env)
    (rep : List (List (String × JsonVal))) (p c t : Nat)
    (hrun : runProcess apiKey (some docs) envs = .finished rep p c t) :
    ∀ rec ∈ rep, ∀ k ∈ requiredKeys, (dictGet rec k).isSome := by
  intro rec hrec k hk
  have hloop := runProcess_finished_inv hrun
  obtain ⟨rep', p', c', t', hloop', hlen, _, _, _, hget⟩ :=
    batchLoop_spec envs (collectFiles docs) 0
  rw [hloop] at hloop'
  have heq := Option.some.inj hloop'
  simp only [Prod.mk.injEq] at heq
  obtain ⟨hrepe, _⟩ := heq
  subst hrepe
  obtain ⟨⟨j, hj⟩, hjval⟩ := List.mem_iff_get.mp hrec
  obtain ⟨r, u, hana, hrecj⟩ := hget j (by rw [← hlen]; exact hj) hj
  rw [← hjval, hrecj]
  exact dictGet_dictSet_isSome "_file" _ (analyze_record_keys hana k hk)

/-- Witness for the amended C3 at a concrete finished run, at the
report's only record and the `reason` key. -/
theorem C3_amended_keys_always_present_witness :
    (dictGet (dictSet badShapeFields "_file" (JsonVal.str "a.txt"))
      "reason").isSome :=
  C3_amended_keys_always_present (some "k") [⟨"a.txt", "x"⟩]
    (fun _ => envBadShape) _ 10 5 15 rfl
    (dictSet badShapeFields "_file" (JsonVal.str "a.txt")) (by simp)
    "reason" (by simp [requiredKeys])

/-- Concrete model response that passes the key check while choosing the
status `ERROR` itself — which the 1.5 system prompt explicitly offers as
a schema value. -/
def modelErrorFields : List (String × JsonVal) :=
  [("name", .str ""),
   ("stated_occupation", .str ""),
   ("baker_status", .str "ERROR"),
   ("evidence", .arr []),
   ("reason", .str "model chose ERROR")]

/-- Environment whose model response is `modelErrorFields`. -/
def envModelError : Env := fun _ => .returns (.ok (.obj modelErrorFields)) uA

/-- C4 counterexample: a first-attempt success whose parsed record has
`baker_status = "ERROR"` is returned from the model-success path (usage
present), refuting the claim that success-path records always carry one
of SUPPORTED, NOT_FOUND, CONFLICT. -/
theorem C4_counterexample :
    attemptOnce envModelError 0 = .ok (modelErrorFields, uA) ∧
    analyze_file envModelError = some (modelErrorFields, some uA) ∧
    dictGet modelErrorFields "baker_status" = some (.str "ERROR") ∧
    "ERROR" ∉ ["SUPPORTED", "NOT_FOUND", "CONFLICT"] :=
  ⟨rfl, rfl, rfl, by decide⟩

/-- C4 amended: a record returned with usage present comes verbatim from
the model response of the succeeding attempt; its `baker_status` is
whatever the model chose — validation restricts only key presence, so
`ERROR` can also come from the success path (the version-1.5 prompt even
offers it). -/
theorem C4_amended_success_verbatim (env : Env)
    (r : List (String × JsonVal)) (u : Usage)
    (h : analyze_file env = some (r, some u)) :
    attemptOnce env 0 = .ok (r, u) ∨ attemptOnce env 1 = .ok (r, u) := by
  match h0 : attemptOnce env 0 with
  | .ok (fields, u0) =>
    have ha := (analyze_ok0 h0).1
    rw [h] at ha
    have heq := Option.some.inj ha.symm
    simp only [Prod.mk.injEq, Option.some.injEq] at heq
    rw [heq.1, heq.2]
    exact Or.inl rfl
  | .error e0 =>
    match h1 : attemptOnce env 1 with
    | .ok (fields, u0) =>
      have ha := (analyze_err0_ok1 h0 h1).1
      rw [h] at ha
      have heq := Option.some.inj ha.symm
      simp only [Prod.mk.injEq, Option.some.injEq] at heq
      rw [heq.1, heq.2]
      exact Or.inr rfl
    | .error e1 =>
      have ha := (analyze_err0_err1 h0 h1).1
      rw [h] at ha
      have heq := Option.some.inj ha.symm
      simp only [Prod.mk.injEq] at heq
      cases heq.2

/-- Witness for the amended C4 at the ERROR-choosing environment. -/
theorem C4_amended_success_verbatim_witness :
    attemptOnce envModelError 0 = .ok (modelErrorFields, uA) ∨
    attemptOnce envModelError 1 = .ok (modelErrorFields, uA) :=
  C4_amended_success_verbatim envModelError modelErrorFields uA rfl

/-- Concrete model response that already contains a `_file` key besides
the five required ones; the subset-based key check accepts it. -/
def spoofFields : List (String × JsonVal) :=
  [("name", .str "A"),
   ("stated_occupation", .str "x"),
   ("baker_status", .str "SUPPORTED"),
   ("evidence", .arr []),
   ("reason", .str "r"),
   ("_file", .str "spoof")]

/-- The report record produced for `spoofFields` under filename
`a.txt`: the pre-existing `_file` pair is overwritten in place. -/
def spoofRec : List (String × JsonVal) :=
  [("name", .str "A"),
   ("stated_occupation", .str "x"),
   ("baker_status", .str "SUPPORTED"),
   ("evidence", .arr []),
   ("reason", .str "r"),
   ("_file", .str "a.txt")]

/-- Environment whose model response is `spoofFields`. -/
def envSpoof : Env := fun _ => .returns (.ok (.obj spoofFields)) uA

/-- C10 counterexample: when the model's JSON already contains a
`_file` key (which passes the subset validation), the driver's
provenance assignment overwrites that pair instead of adding a key, so
the report record is not the analyze_file dict with one key added and
the original `_file` pair is not preserved. -/
theorem C10_counterexample :
    analyze_file envSpoof = some (spoofFields, some uA) ∧
    dictSet spoofFields "_file" (.str "a.txt") = spoofRec ∧
    runProcess (some "k") (some [⟨"a.txt", "x"⟩]) (fun _ => envSpoof) =
      .finished [spoofRec] 10 5 15 ∧
    ("_file", JsonVal.str "spoof") ∈ spoofFields ∧
    ("_file", JsonVal.str "spoof") ∉ spoofRec ∧
    spoofRec.length = spoofFields.length :=
  ⟨rfl, rfl, rfl, by simp [spoofFields], by simp [spoofRec], rfl⟩

/-- C10 amended: each report record is the analyze_file dict with the
`_file` key set to the document's filename — appended as a new final
pair when the dict lacks the key (one key added, all other pairs
preserved unchanged), overwritten in place when the model's JSON
already contained `_file`; keys other than `_file` always keep their
values. -/
theorem C10_amended_provenance (docs : List Doc) (apiKey : Option String)
    (envs : Nat → Env)
    (rep : List (List (String × JsonVal))) (p c t : Nat)
    (hrun : runProcess apiKey (some docs) envs = .finished rep p c t) :
    ∀ j (hj : j < rep.length) (hj2 : j < (collectFiles docs).length),
      ∃ r u, analyze_file (envs j) = some (r, u) ∧
        rep.get ⟨j, hj⟩ =
          dictSet r "_file"
            (.str (((collectFiles docs).get ⟨j, hj2⟩).name)) ∧
        (∀ k, k ≠ "_file" →
          dictGet (rep.get ⟨j, hj⟩) k = dictGet r k) ∧
        ("_file" ∉ keysOf r →
          rep.get ⟨j, hj⟩ =
            r ++ [("_file",
              .str (((collectFiles docs).get ⟨j, hj2⟩).name))]) := by
  intro j hj hj2
  have hloop := runProcess_finished_inv hrun
  obtain ⟨rep', p', c', t', hloop', hlen, _, _, _, hget⟩ :=
    batchLoop_spec envs (collectFiles docs) 0
  rw [hloop] at hloop'
  have heq := Option.some.inj hloop'
  simp only [Prod.mk.injEq] at heq
  obtain ⟨hrepe, _⟩ := heq
  subst hrepe
  obtain ⟨r, u, hana, hrecj⟩ := hget j hj2 hj
  rw [Nat.zero_add] at hana
  refine ⟨r, u, hana, hrecj, ?_, ?_⟩
  · intro k hkne
    rw [hrecj]
    exact dictGet_dictSet_ne r _ hkne
  · intro hnomem
    rw [hrecj]
    exact dictSet_append_of_not_mem r _ hnomem

/-- Witness for the amended C10 at a concrete finished run, at the
report's only index. -/
theorem C10_amended_provenance_witness :
    ∃ r u, analyze_file ((fun _ => envSpoof) 0) = some (r, u) ∧
      [spoofRec].get ⟨0, by simp⟩ =
        dictSet r "_file"
          (.str (((collectFiles [⟨"a.txt", "x"⟩]).get ⟨0, by decide⟩).name)) ∧
      (∀ k, k ≠ "_file" →
        dictGet ([spoofRec].get ⟨0, by simp⟩) k = dictGet r k) ∧
      ("_file" ∉ keysOf r →
        [spoofRec].get ⟨0, by simp⟩ =
          r ++ [("_file",
            .str (((collectFiles [⟨"a.txt", "x"⟩]).get ⟨0, by decide⟩).name))]) :=
  C10_amended_provenance [⟨"a.txt", "x"⟩] (some "k") (fun _ => envSpoof)
    [spoofRec] 10 5 15 rfl 0 (by simp) (by decide)

end RoleCheck
